import Mathlib

/-!
# Lab-12: shared counter under a lock (`src/main.cpp`)

A shallow embedding of `main.cpp` as an interleaving transition system.

* The global variables `global_counter`, `quitnow`, `global_lock` are fields of `State`.
* Every unit (main, worker `i`) has a program counter naming the source statement it
  executes next; `step` executes that one statement for the scheduled unit.
* A unit scheduled while it cannot move (blocked in `LockThread`, not yet created,
  already finished) leaves the state as it is.
* `run` executes a schedule (a list of unit identifiers), one statement per entry.
  The reachable states of the program are the states `run N p sched init`.
* `global_counter` is an `atomic<int>`: a 32-bit signed integer whose `++` wraps
  around (two's complement), modelled by `wrap32`.
* The two `#ifdef` branches are selected by a `Platform` value.
* Time is not part of the state: a `sleep(...)` statement only moves its unit on. The
  argument arithmetic of `sleep` is the separate function `sleep`.
* The library calls are taken with their documented meaning: a mutex (critical section)
  has at most one owner and stays owned when its owner is terminated, `pthread_exit` ends
  the calling thread, `TerminateThread` ends the thread it is given.
-/

namespace Lab12

/-! ## The program -/

/-- The two conditional-compilation branches (`_COMPILE_LINUX`, `_COMPILE_WINDOWS`). -/
inductive Platform where
  | linux
  | windows
  deriving DecidableEq, Repr

/-- Value of a 32-bit signed `int` holding the mathematical integer `x` (two's complement). -/
def wrap32 (x : Int) : Int := (x + 2147483648) % 4294967296 - 2147483648

/-- Value of a 32-bit unsigned integer (`useconds_t`, `DWORD`) converted from `x`. -/
def toU32 (x : Int) : Int := x % 4294967296

/-- The `int` range. -/
def isInt32 (x : Int) : Prop := -2147483648 ≤ x ∧ x ≤ 2147483647

instance (x : Int) : Decidable (isInt32 x) := by unfold isInt32; infer_instance

/-- The library call `sleep` ends in, with the argument as the callee receives it. -/
inductive SleepCall where
  | usleep (usec : Int)
  | Sleep (msec : Int)
  deriving DecidableEq, Repr

/-- The `int` expression `ms * 1000` of line 158. -/
def sleepProduct (ms : Int) : Int := wrap32 (ms * 1000)

/-- Function `sleep(int ms)`, lines 156-163: `usleep(ms * 1000)` on Linux (the `int`
product converted to the unsigned `useconds_t`), `Sleep(ms)` on Windows (`ms` converted
to `DWORD`). -/
def sleep (p : Platform) (ms : Int) : SleepCall :=
  match p with
  | .linux => .usleep (toU32 (sleepProduct ms))
  | .windows => .Sleep (toU32 ms)

/-- Duration, in microseconds, that a library call requests. -/
def SleepCall.micros : SleepCall → Int
  | .usleep usec => usec
  | .Sleep msec => 1000 * msec

/-- A unit of execution: the main thread or the worker created for `threads[i]`. -/
inductive Tid where
  | main
  | worker (i : Nat)
  deriving DecidableEq, Repr

/-- Program counter of `main` (lines 50-78). -/
inductive MainPc where
  /-- line 52, `InitThreadLock(global_lock)` -/
  | init
  /-- lines 59-61, the creation loop with loop variable `i` -/
  | spawn (i : Nat)
  /-- line 64, `while (!quitnow)` -/
  | check
  /-- line 65, `LockThread(global_lock)` -/
  | lock
  /-- line 66, `cout << ... << global_counter.load()` -/
  | print
  /-- line 67, `UnlockThread(global_lock)` -/
  | unlock
  /-- line 69, `sleep(1000)` -/
  | sleep
  /-- lines 73-75, the stop loop with loop variable `i` -/
  | stop (i : Nat)
  /-- line 77, `return 0` -/
  | ret
  /-- the main thread has ended -/
  | exited
  deriving DecidableEq, Repr

/-- Program counter of a worker running `ThreadFunction` (lines 83-94). -/
inductive WorkerPc where
  /-- not created yet -/
  | unborn
  /-- line 85, `while (!quitnow)` -/
  | check
  /-- line 86, `LockThread(global_lock)` -/
  | lock
  /-- line 87, `global_counter++` -/
  | inc
  /-- line 88, `cout << ... << global_counter.load()` -/
  | print
  /-- line 89, `UnlockThread(global_lock)` -/
  | unlock
  /-- line 91, `sleep(500)` -/
  | sleep
  /-- line 93, `return NULL`: the worker has ended by itself -/
  | ret
  /-- ended from outside by `TerminateThread` -/
  | killed
  deriving DecidableEq, Repr

/-- A line written to standard output, with the counter value it shows:
`"Main Thread: Global Counter = <n>"` or `"Thread: Incrementing global counter to <n>"`. -/
inductive Line where
  | main (n : Int)
  | thread (n : Int)
  deriving DecidableEq, Repr

/-- The counter value a line shows. -/
def Line.value : Line → Int
  | .main n => n
  | .thread n => n

/-- Global state of the process. -/
structure State where
  /-- The `atomic<int> global_counter` -/
  global_counter : Int
  /-- The `bool quitnow` -/
  quitnow : Bool
  /-- The `THREAD_LOCK global_lock`: the unit that owns it, if any -/
  global_lock : Option Tid
  /-- where `main` is -/
  mainPc : MainPc
  /-- where each worker is -/
  wpc : Nat → WorkerPc
  /-- standard output so far -/
  out : List Line
  /-- exit code of the process once `main` has returned -/
  exitCode : Option Int

/-- State at process start: `global_counter(0)`, `quitnow = false`, no worker. -/
def init : State where
  global_counter := 0
  quitnow := false
  global_lock := none
  mainPc := .init
  wpc := fun _ => .unborn
  out := []
  exitCode := none

/-- The constant `const int num_threads = 5` (line 55). -/
def num_threads : Nat := 5

/-- Function `InitThreadLock` (lines 129-136): the lock starts unowned. -/
def InitThreadLock (s : State) : State := { s with global_lock := none }

/-- Function `LockThread` (lines 138-145) called by `t`: returns with `t` owning the lock when it
is free; `none` while the caller has to wait. -/
def LockThread (t : Tid) (s : State) : Option State :=
  match s.global_lock with
  | none => some { s with global_lock := some t }
  | some _ => none

/-- Function `UnlockThread` (lines 147-154): the lock becomes free. -/
def UnlockThread (s : State) : State := { s with global_lock := none }

/-- Call `PrepareThread(ThreadFunction, nullptr)` (lines 99-117) for `threads[i]`: the new
worker starts at the top of `ThreadFunction`. -/
def PrepareThread (i : Nat) (s : State) : State :=
  { s with wpc := Function.update s.wpc i .check }

/-- Call `TerminateThread(t, 0)`: worker `t` executes nothing more; nothing it owns is released. -/
def TerminateThread (t : Nat) (s : State) : State :=
  { s with wpc := Function.update s.wpc t .killed }

/-- Call `StopThread(threads[t])` (lines 119-127) called by `main`.
Linux: `pthread_exit((void*)t)` ends the calling thread, here `main`.
Windows: `TerminateThread(t, 0); CloseHandle(t)` ends worker `t`. -/
def StopThread (p : Platform) (t : Nat) (s : State) : State :=
  match p with
  | .linux => { s with mainPc := .exited }
  | .windows => TerminateThread t s

/-- One statement of `main` (lines 50-78) with `num_threads = N`. -/
def stepMain (N : Nat) (p : Platform) (s : State) : State :=
  match s.mainPc with
  | .init => { InitThreadLock s with mainPc := .spawn 0 }
  | .spawn i =>
      if i < N then PrepareThread i { s with mainPc := .spawn (i + 1) }
      else { s with mainPc := .check }
  | .check => if s.quitnow then { s with mainPc := .stop 0 } else { s with mainPc := .lock }
  | .lock =>
      match LockThread .main s with
      | some s' => { s' with mainPc := .print }
      | none => s
  | .print => { s with out := s.out ++ [.main s.global_counter], mainPc := .unlock }
  | .unlock => { UnlockThread s with mainPc := .sleep }
  | .sleep => { s with mainPc := .check }
  | .stop i =>
      if i < N then StopThread p i { s with mainPc := .stop (i + 1) }
      else { s with mainPc := .ret }
  | .ret => { s with exitCode := some 0, mainPc := .exited }
  | .exited => s

/-- One statement of `ThreadFunction` (lines 83-94) for worker `w`. -/
def stepWorker (w : Nat) (s : State) : State :=
  match s.wpc w with
  | .unborn => s
  | .check =>
      if s.quitnow then { s with wpc := Function.update s.wpc w .ret }
      else { s with wpc := Function.update s.wpc w .lock }
  | .lock =>
      match LockThread (.worker w) s with
      | some s' => { s' with wpc := Function.update s'.wpc w .inc }
      | none => s
  | .inc =>
      { s with global_counter := wrap32 (s.global_counter + 1),
               wpc := Function.update s.wpc w .print }
  | .print =>
      { s with out := s.out ++ [.thread s.global_counter],
               wpc := Function.update s.wpc w .unlock }
  | .unlock => { UnlockThread s with wpc := Function.update s.wpc w .sleep }
  | .sleep => { s with wpc := Function.update s.wpc w .check }
  | .ret => s
  | .killed => s

/-- One statement of the scheduled unit; nothing runs once the process has exited. -/
def step (N : Nat) (p : Platform) (s : State) (t : Tid) : State :=
  match s.exitCode with
  | some _ => s
  | none =>
      match t with
      | .main => stepMain N p s
      | .worker w => stepWorker w s

/-- Execute a schedule from `s`. -/
def run (N : Nat) (p : Platform) (sched : List Tid) (s : State) : State :=
  sched.foldl (step N p) s

/-- Unit `t` is between its `LockThread` and the matching `UnlockThread`. -/
def inCS (s : State) : Tid → Bool
  | .main => s.mainPc = .print || s.mainPc = .unlock
  | .worker w => s.wpc w = .inc || s.wpc w = .print || s.wpc w = .unlock

/-- The statement `t` executes next reads or writes `global_counter`
(line 66 in `main`, lines 87 and 88 in `ThreadFunction`). -/
def accessesCounter (s : State) : Tid → Bool
  | .main => s.exitCode = none && s.mainPc = .print
  | .worker w => s.exitCode = none && (s.wpc w = .inc || s.wpc w = .print)

/-- The statement `t` executes next is `global_counter++` (line 87). -/
def isInc (s : State) : Tid → Bool
  | .main => false
  | .worker w => s.exitCode = none && s.wpc w = .inc

/-- Number of `global_counter++` statements executed along a schedule started in `s`. -/
def incSteps (N : Nat) (p : Platform) : List Tid → State → Nat
  | [], _ => 0
  | t :: ts, s => (if isInc s t then 1 else 0) + incSteps N p ts (step N p s t)

/-- One full iteration of the worker loop: check, lock, increment, print, unlock, sleep. -/
def workerIteration (w : Nat) : List Tid := List.replicate 6 (.worker w)

/-- The schedule in which worker `w` alone performs `k` iterations. -/
def workerIterations (w : Nat) : Nat → List Tid
  | 0 => []
  | k + 1 => workerIterations w k ++ workerIteration w

/-- The schedule in which `main` initialises the lock, creates `N` workers and leaves the
creation loop. -/
def startup (N : Nat) : List Tid := List.replicate (N + 2) .main

/-- An actor outside the program raises the shutdown flag (no statement of the program does). -/
def setQuit (s : State) : State := { s with quitnow := true }

/-- The counter values printed so far, in print order. -/
def printed (s : State) : List Int := s.out.map Line.value

/-- Whoever is inside a critical section owns the lock; no worker exists before `main` has
initialised the lock, and `threads[i]`, `threads[i+1]`, ... do not exist while the creation
loop is at index `i`. -/
structure Owner (s : State) : Prop where
  holds : ∀ t, inCS s t = true → s.global_lock = some t
  fresh : s.mainPc = .init → ∀ w, s.wpc w = .unborn
  later : ∀ i, s.mainPc = .spawn i → ∀ v, i ≤ v → s.wpc v = .unborn

/-- The shutdown flag is down, the process has not exited, `main` is in its creation phase
or its loop, and no worker has ended. -/
structure Calm (s : State) : Prop where
  quit : s.quitnow = false
  alive : s.exitCode = none
  mainStop : ∀ i, s.mainPc ≠ .stop i
  mainRet : s.mainPc ≠ .ret
  mainExited : s.mainPc ≠ .exited
  workerRet : ∀ w, s.wpc w ≠ .ret
  workerKilled : ∀ w, s.wpc w ≠ .killed

/-- The values a worker prints in `k` consecutive iterations started at counter value `c`. -/
def iterationLines (c : Int) (k : Nat) : List Line :=
  (List.range k).map (fun j => Line.thread (wrap32 (c + j + 1)))

/-- The state in which `main` has created the five workers and stands at its loop test. -/
def started : State := run num_threads .linux (startup num_threads) init

/-- The schedule in which `main` starts the five workers and worker 0 then completes
`2^31` iterations on its own. -/
def overflowSchedule : List Tid := startup num_threads ++ workerIterations 0 2147483648

/-- A short schedule: startup, one iteration of worker 0 and of worker 3, a print by
`main`, and worker 1 entering its critical section. -/
def sampleSchedule : List Tid :=
  startup num_threads ++ workerIteration 0 ++ workerIteration 3 ++ [.main, .main, .main, .main]
    ++ [.worker 1, .worker 1]

/-- Worker `w` was terminated while it owned the lock: it still owns it, nobody is inside
a critical section, and `main` is past the creation of `threads[w]`. -/
structure Stuck (w : Nat) (s : State) : Prop where
  held : s.global_lock = some (.worker w)
  dead : s.wpc w = .killed
  nobody : ∀ t, inCS s t = false
  pastInit : s.mainPc ≠ .init
  pastSpawn : ∀ i, s.mainPc = .spawn i → w < i

/-- With no worker created the counter is zero and every line printed is `main` showing 0. -/
structure Solo (s : State) : Prop where
  zero : s.global_counter = 0
  noWorker : ∀ w, s.wpc w = .unborn
  lines : ∀ l ∈ s.out, l = Line.main 0

/-- The state in which worker 0 waits in `LockThread`, the shutdown flag has been raised
from outside, and `main` stands at its loop test. -/
def shutdownState (p : Platform) : State :=
  setQuit (run num_threads p (startup num_threads ++ [.worker 0]) init)

/-- The schedule after which worker 0 has completed one iteration and worker 1 stands at
its `LockThread` with the lock free. -/
def acquireSchedule : List Tid := startup num_threads ++ workerIteration 0 ++ [.worker 1]

/-- The schedule after which worker 0 has completed `2^31 - 1` iterations and stands at its
`LockThread` again. -/
def nearOverflowSchedule : List Tid :=
  startup num_threads ++ workerIterations 0 2147483647 ++ [.worker 0]

/-! ## Small checks of the embedding -/

theorem startup_reaches_loop :
    (run 5 .linux (startup 5) init).mainPc = .check ∧
      (run 5 .linux (startup 5) init).wpc 4 = .check ∧
      (run 5 .linux (startup 5) init).wpc 5 = .unborn := by
  decide

theorem two_iterations_count_two :
    (run 5 .linux (startup 5 ++ workerIteration 0 ++ workerIteration 3) init).global_counter
      = 2 := by
  decide

theorem blocked_lock_waits :
    (run 5 .linux (startup 5 ++ [.worker 0, .worker 0, .main, .main, .main]) init).mainPc
      = .lock := by
  decide

/-! ## The lock discipline -/

theorem owner_init : Owner init := by
  refine ⟨?_, fun _ _ => rfl, fun _ _ _ _ => rfl⟩
  intro t; cases t <;> simp [inCS, init]

theorem owner_stepMain {N : Nat} {p : Platform} {s : State} (h : Owner s) :
    Owner (stepMain N p s) := by
  have hM := h.holds .main
  have hW := fun v => h.holds (.worker v)
  have hF := h.fresh
  have hL := h.later
  simp only [inCS, Bool.or_eq_true, decide_eq_true_eq] at hM hW
  unfold stepMain
  cases hpc : s.mainPc <;> cases hl : s.global_lock <;>
    simp only [InitThreadLock, LockThread, UnlockThread, PrepareThread, StopThread,
      TerminateThread, hl] <;> (try split) <;> (try split) <;>
    refine ⟨?_, ?_, ?_⟩
  all_goals first
    | (intro t'; cases t' with
        | main => simp_all [inCS]
        | worker v =>
          have hv := hW v
          simp_all [inCS, Function.update_apply]
          try (split_ifs at * <;> simp_all))
    | (simp_all; done)
    | (simp_all
       intro v hv
       rw [Function.update_noteq (by omega)]
       exact hL v (by omega))

theorem owner_stepWorker {s : State} (h : Owner s) (w : Nat) : Owner (stepWorker w s) := by
  have hM := h.holds .main
  have hW := fun v => h.holds (.worker v)
  have hF := h.fresh
  have hL := h.later
  simp only [inCS, Bool.or_eq_true, decide_eq_true_eq] at hM hW
  unfold stepWorker
  cases hpc : s.wpc w <;> cases hl : s.global_lock <;>
    simp only [LockThread, UnlockThread, hl] <;> (try split) <;>
    refine ⟨?_, ?_, ?_⟩
  all_goals first
    | (intro t'; have hw := hW w; cases t' with
        | main => simp_all [inCS]; try (subst_vars; simp_all)
        | worker v =>
          have hv := hW v
          by_cases hvw : v = w
          · subst hvw; simp_all [inCS]
          · have hvw' : ¬ w = v := fun e => hvw e.symm
            simp_all [inCS, Function.update_apply]; try (subst_vars; simp_all))
    | (intro hi; have := hF hi w; simp_all)
    | (intro i hi v hv
       have h1 := hL i hi v hv
       have h2 := hL i hi
       by_cases hvw : v = w
       · subst hvw; simp_all
       · simp_all [Function.update_apply])

theorem owner_step {N : Nat} {p : Platform} {s : State} (h : Owner s) (t : Tid) :
    Owner (step N p s t) := by
  unfold step
  cases s.exitCode with
  | some c => exact h
  | none =>
    cases t with
    | main => exact owner_stepMain h
    | worker w => exact owner_stepWorker h w

theorem owner_run {N : Nat} {p : Platform} (sched : List Tid) {s : State} (h : Owner s) :
    Owner (run N p sched s) := by
  induction sched generalizing s with
  | nil => exact h
  | cons t ts ih => exact ih (owner_step h t)

/-! ## The shutdown flag and the loops -/

theorem calm_init : Calm init := by
  refine ⟨rfl, rfl, ?_, ?_, ?_, ?_, ?_⟩ <;> simp [init]

theorem calm_step {N : Nat} {p : Platform} {s : State} (h : Calm s) (t : Tid) :
    Calm (step N p s t) := by
  obtain ⟨hq, ha, hm1, hm2, hm3, hw1, hw2⟩ := h
  cases t with
  | main =>
    simp only [step, ha, stepMain]
    cases hpc : s.mainPc <;> cases hl : s.global_lock <;>
      simp only [InitThreadLock, LockThread, UnlockThread, PrepareThread, StopThread,
        TerminateThread, hl, hq] <;> (try split) <;>
      refine ⟨?_, ?_, ?_, ?_, ?_, ?_, ?_⟩
    all_goals first
      | (intro v; have h1 := hw1 v; have h2 := hw2 v
         simp_all [Function.update_apply]
         try (split_ifs at * <;> simp_all))
      | simp_all
  | worker w =>
    simp only [step, ha, stepWorker]
    cases hpc : s.wpc w <;> cases hl : s.global_lock <;>
      simp only [LockThread, UnlockThread, hl, hq] <;> (try split) <;>
      refine ⟨?_, ?_, ?_, ?_, ?_, ?_, ?_⟩
    all_goals first
      | (intro v; have h1 := hw1 v; have h2 := hw2 v
         simp_all [Function.update_apply]
         try (split_ifs at * <;> simp_all))
      | simp_all

theorem calm_run {N : Nat} {p : Platform} (sched : List Tid) {s : State} (h : Calm s) :
    Calm (run N p sched s) := by
  induction sched generalizing s with
  | nil => exact h
  | cons t ts ih => exact ih (calm_step h t)

/-! ## The counter and the output -/

theorem wrap32_wrap32_add (a b : Int) : wrap32 (wrap32 a + b) = wrap32 (a + b) := by
  unfold wrap32; omega

theorem wrap32_of_isInt32 {x : Int} (h : isInt32 x) : wrap32 x = x := by
  unfold wrap32; unfold isInt32 at h; omega

theorem run_append (N : Nat) (p : Platform) (a b : List Tid) (s : State) :
    run N p (a ++ b) s = run N p b (run N p a s) := by
  simp [run, List.foldl_append]

theorem run_nil (N : Nat) (p : Platform) (s : State) : run N p [] s = s := rfl

theorem run_cons (N : Nat) (p : Platform) (t : Tid) (ts : List Tid) (s : State) :
    run N p (t :: ts) s = run N p ts (step N p s t) := rfl

theorem incSteps_append (N : Nat) (p : Platform) (a b : List Tid) (s : State) :
    incSteps N p (a ++ b) s = incSteps N p a s + incSteps N p b (run N p a s) := by
  induction a generalizing s with
  | nil => simp [incSteps, run]
  | cons t ts ih => simp [incSteps, run_cons, ih, Nat.add_assoc]

/-- What one statement does to the counter and to the output: `global_counter++` adds one
(wrapping) and prints nothing; any other statement leaves the counter alone and prints
either nothing or one line showing the current counter value. -/
theorem step_effect (N : Nat) (p : Platform) (s : State) (t : Tid) :
    (isInc s t = true ∧ (step N p s t).global_counter = wrap32 (s.global_counter + 1) ∧
        (step N p s t).out = s.out) ∨
    (isInc s t = false ∧ (step N p s t).global_counter = s.global_counter ∧
        ((step N p s t).out = s.out ∨
          (accessesCounter s t = true ∧
            ∃ l, (step N p s t).out = s.out ++ [l] ∧ l.value = s.global_counter))) := by
  unfold step
  cases ha : s.exitCode with
  | some c => cases t <;> simp [isInc, ha]
  | none =>
    cases t with
    | main =>
      simp only [stepMain]
      cases hpc : s.mainPc <;> cases hl : s.global_lock <;>
        simp only [InitThreadLock, LockThread, UnlockThread, PrepareThread, StopThread,
          TerminateThread, hl] <;> (try split) <;> (try split) <;>
        simp [isInc, accessesCounter, ha, hpc, Line.value]
    | worker w =>
      simp only [stepWorker]
      cases hpc : s.wpc w <;> cases hl : s.global_lock <;>
        simp only [LockThread, UnlockThread, hl] <;> (try split) <;>
        simp [isInc, accessesCounter, ha, hpc, Line.value]

theorem counter_step (N : Nat) (p : Platform) (s : State) (t : Tid) :
    (step N p s t).global_counter =
      if isInc s t then wrap32 (s.global_counter + 1) else s.global_counter := by
  rcases step_effect N p s t with ⟨h1, h2, _⟩ | ⟨h1, h2, _⟩ <;> simp [h1, h2]

theorem counter_run (N : Nat) (p : Platform) (sched : List Tid) (s : State) :
    (run N p sched s).global_counter =
      if incSteps N p sched s = 0 then s.global_counter
      else wrap32 (s.global_counter + incSteps N p sched s) := by
  induction sched generalizing s with
  | nil => simp [run, incSteps]
  | cons t ts ih =>
    rw [run_cons, ih, counter_step]
    by_cases hi : isInc s t = true
    · simp only [incSteps, hi, if_true]
      split
      · rename_i h0; rw [h0]; simp
      · rw [wrap32_wrap32_add]; simp only [if_neg (by omega : ¬ (1 + incSteps N p ts (step N p s t) = 0))]
        congr 1; push_cast; ring
    · simp only [Bool.not_eq_true] at hi
      simp [incSteps, hi]

/-! ## A worker iterating alone -/

theorem run_workerIteration (N : Nat) (p : Platform) (w : Nat) (s : State)
    (ha : s.exitCode = none) (hq : s.quitnow = false) (hl : s.global_lock = none)
    (hpc : s.wpc w = .check) :
    run N p (workerIteration w) s =
      { s with global_counter := wrap32 (s.global_counter + 1),
               out := s.out ++ [.thread (wrap32 (s.global_counter + 1))] } := by
  simp [workerIteration, List.replicate, run, step, stepWorker, LockThread, UnlockThread,
    ha, hq, hl, hpc]

theorem incSteps_workerIteration (N : Nat) (p : Platform) (w : Nat) (s : State)
    (ha : s.exitCode = none) (hq : s.quitnow = false) (hl : s.global_lock = none)
    (hpc : s.wpc w = .check) :
    incSteps N p (workerIteration w) s = 1 := by
  simp [workerIteration, List.replicate, incSteps, isInc, step, stepWorker, LockThread,
    UnlockThread, ha, hq, hl, hpc]

theorem iterationLines_succ (c : Int) (k : Nat) :
    iterationLines c (k + 1) = iterationLines c k ++ [Line.thread (wrap32 (c + k + 1))] := by
  simp [iterationLines, List.range_succ]

theorem run_workerIterations (N : Nat) (p : Platform) (w : Nat) (k : Nat) (s : State)
    (ha : s.exitCode = none) (hq : s.quitnow = false) (hl : s.global_lock = none)
    (hpc : s.wpc w = .check) (hc : wrap32 s.global_counter = s.global_counter) :
    run N p (workerIterations w k) s =
      { s with global_counter := wrap32 (s.global_counter + k),
               out := s.out ++ iterationLines s.global_counter k } := by
  induction k with
  | zero => simp [workerIterations, run, iterationLines, hc]
  | succ k ih =>
    rw [workerIterations, run_append, ih,
      run_workerIteration N p w _ (by simpa using ha) (by simpa using hq) (by simpa using hl)
        (by simpa using hpc)]
    simp only [wrap32_wrap32_add, iterationLines_succ, List.append_assoc]
    congr 2
    push_cast; ring

theorem incSteps_workerIterations (N : Nat) (p : Platform) (w : Nat) (k : Nat) (s : State)
    (ha : s.exitCode = none) (hq : s.quitnow = false) (hl : s.global_lock = none)
    (hpc : s.wpc w = .check) (hc : wrap32 s.global_counter = s.global_counter) :
    incSteps N p (workerIterations w k) s = k := by
  induction k with
  | zero => simp [workerIterations, incSteps]
  | succ k ih =>
    rw [workerIterations, incSteps_append, ih, run_workerIterations N p w k s ha hq hl hpc hc,
      incSteps_workerIteration N p w _ (by simpa using ha) (by simpa using hq)
        (by simpa using hl) (by simpa using hpc)]

theorem started_eq : run num_threads .linux (startup num_threads) init = started := rfl

theorem started_facts :
    started.exitCode = none ∧ started.quitnow = false ∧ started.global_lock = none ∧
      started.wpc 0 = .check ∧ started.global_counter = 0 ∧ started.out = [] ∧
      started.mainPc = .check := by
  decide

theorem run_overflowSchedule :
    run num_threads .linux overflowSchedule init =
      { started with global_counter := -2147483648,
                     out := iterationLines 0 2147483648 } := by
  obtain ⟨ha, hq, hl, hpc, hc, ho, _⟩ := started_facts
  have h := run_workerIterations num_threads .linux 0 2147483648 started ha hq hl hpc
    (by rw [hc]; decide)
  rw [overflowSchedule, run_append, started_eq, h, hc, ho]
  have hw : wrap32 (0 + ((2147483648 : Nat) : Int)) = -2147483648 := by decide
  rw [hw, List.nil_append]

theorem sorted_run (N : Nat) (p : Platform) (sched : List Tid) (s : State)
    (h0 : 0 ≤ s.global_counter)
    (hb : s.global_counter + incSteps N p sched s < 2147483648)
    (hs : List.Pairwise (· ≤ ·) (printed s))
    (hle : ∀ v ∈ printed s, v ≤ s.global_counter) :
    List.Pairwise (· ≤ ·) (printed (run N p sched s)) := by
  induction sched generalizing s with
  | nil => exact hs
  | cons t ts ih =>
    rw [run_cons]
    simp only [incSteps] at hb
    rcases step_effect N p s t with ⟨h1, h2, h3⟩ | ⟨h1, h2, h3⟩
    · simp only [h1, if_true] at hb
      have hw : wrap32 (s.global_counter + 1) = s.global_counter + 1 := by
        unfold wrap32; omega
      apply ih
      · rw [h2, hw]; omega
      · rw [h2, hw]; push_cast at hb; omega
      · simpa [printed, h3] using hs
      · intro v hv
        have := hle v (by simpa [printed, h3] using hv)
        rw [h2, hw]; omega
    · simp only [h1] at hb
      apply ih
      · rw [h2]; exact h0
      · rw [h2]; simpa using hb
      · rcases h3 with h3 | ⟨_, l, h3, hl⟩
        · simpa [printed, h3] using hs
        · simp only [printed, h3, List.map_append, List.map_cons, List.map_nil, hl]
          rw [List.pairwise_append]
          refine ⟨hs, by simp, ?_⟩
          intro a ha b hb'
          simp only [List.mem_singleton] at hb'
          subst hb'
          exact hle a ha
      · intro v hv
        rw [h2]
        rcases h3 with h3 | ⟨_, l, h3, hl⟩
        · exact hle v (by simpa [printed, h3] using hv)
        · simp only [printed, h3, List.map_append, List.map_cons, List.map_nil, hl,
            List.mem_append, List.mem_singleton] at hv
          rcases hv with hv | hv
          · exact hle v hv
          · omega

/-! ## While a worker owns the lock -/

/-- While worker `w` is inside its critical section, a statement of any other unit changes
neither the counter, nor the output, nor the lock, nor where `w` is. -/
theorem frame_step {N : Nat} {p : Platform} {s : State} {w : Nat} {t : Tid}
    (ho : Owner s) (hc : Calm s) (hw : inCS s (.worker w) = true) (ht : t ≠ .worker w) :
    (step N p s t).global_counter = s.global_counter ∧ (step N p s t).out = s.out ∧
      (step N p s t).global_lock = s.global_lock ∧ (step N p s t).wpc w = s.wpc w := by
  have hl := ho.holds _ hw
  have hM := ho.holds .main
  have hF := ho.fresh
  have hL := ho.later
  obtain ⟨hq, ha, hm1, hm2, hm3, hw1, hw2⟩ := hc
  simp only [inCS, Bool.or_eq_true, decide_eq_true_eq] at hM hw
  cases t with
  | main =>
    simp only [step, ha, stepMain]
    cases hpc : s.mainPc <;>
      simp only [InitThreadLock, LockThread, UnlockThread, PrepareThread, StopThread,
        TerminateThread, hl, hq] <;> (try split) <;> (try simp_all; done)
    · rename_i i hi
      have hne : w ≠ i := by
        intro e; subst e
        have := hL w hpc w (le_refl _)
        simp_all
      simp [Function.update_apply, hne]
  | worker v =>
    have hvw : v ≠ w := fun e => ht (by rw [e])
    have hwv : w ≠ v := fun e => hvw e.symm
    have hV := ho.holds (.worker v)
    simp only [inCS, Bool.or_eq_true, decide_eq_true_eq, hl, Option.some.injEq,
      Tid.worker.injEq, hwv, imp_false] at hV
    simp only [step, ha, stepWorker]
    cases hpc : s.wpc v <;>
      simp only [LockThread, UnlockThread, hl, hq] <;> (try split) <;>
      simp_all [Function.update_apply]

theorem frame_run {N : Nat} {p : Platform} (sched : List Tid) {s : State} {w : Nat}
    (ho : Owner s) (hc : Calm s) (hw : inCS s (.worker w) = true)
    (hs : Tid.worker w ∉ sched) :
    (run N p sched s).global_counter = s.global_counter ∧ (run N p sched s).out = s.out ∧
      (run N p sched s).global_lock = s.global_lock ∧ (run N p sched s).wpc w = s.wpc w := by
  induction sched generalizing s with
  | nil => simp [run]
  | cons t ts ih =>
    have ht : t ≠ .worker w := fun e => hs (by simp [e])
    have hts : Tid.worker w ∉ ts := fun e => hs (by simp [e])
    obtain ⟨f1, f2, f3, f4⟩ := frame_step (N := N) (p := p) ho hc hw ht
    have hw' : inCS (step N p s t) (.worker w) = true := by
      simpa [inCS, f4] using hw
    obtain ⟨g1, g2, g3, g4⟩ := ih (owner_step ho t) (calm_step hc t) hw' hts
    rw [run_cons]
    exact ⟨g1.trans f1, g2.trans f2, g3.trans f3, g4.trans f4⟩

/-! ## After a worker was terminated inside its critical section -/

theorem stuck_step {N : Nat} {p : Platform} {w : Nat} {s : State} (h : Stuck w s) (t : Tid) :
    Stuck w (step N p s t) ∧ (step N p s t).global_counter = s.global_counter ∧
      (step N p s t).out = s.out := by
  obtain ⟨hl, hd, hn, hi, hsp⟩ := h
  have hM := hn .main
  have hW := fun v => hn (.worker v)
  simp only [inCS, Bool.or_eq_false_iff, decide_eq_false_iff_not] at hM hW
  unfold step
  cases ha : s.exitCode with
  | some c => exact ⟨⟨hl, hd, hn, hi, hsp⟩, rfl, rfl⟩
  | none =>
    cases t with
    | main =>
      simp only [stepMain]
      cases hpc : s.mainPc <;>
        simp only [InitThreadLock, LockThread, UnlockThread, PrepareThread, StopThread,
          TerminateThread, hl] <;> (try split) <;> (try split) <;>
        refine ⟨⟨?_, ?_, ?_, ?_, ?_⟩, ?_, ?_⟩
      all_goals first
        | (simp_all; done)
        | (intro t'; cases t' with
            | main => simp_all [inCS]
            | worker v =>
              have hv := hW v
              simp_all [inCS, Function.update_apply]
              try (split_ifs at * <;> simp_all))
        | (have hlt := hsp _ hpc
           simp_all [Function.update_apply]
           try omega)
        | (simp only [Function.update_apply]; split <;> simp_all)
    | worker v =>
      simp only [stepWorker]
      cases hpc : s.wpc v <;>
        simp only [LockThread, UnlockThread, hl] <;> (try split) <;>
        refine ⟨⟨?_, ?_, ?_, ?_, ?_⟩, ?_, ?_⟩
      all_goals first
        | (simp_all; done)
        | (have hv := hW v; simp_all; done)
        | (by_cases hvw : w = v
           · subst hvw; simp_all
           · simp_all [Function.update_apply])
        | (intro t'; cases t' with
            | main => simp_all [inCS]
            | worker u =>
              have hu := hW u
              have hv := hW v
              by_cases huv : u = v
              · subst huv; simp_all [inCS]
              · simp_all [inCS, Function.update_apply])

theorem stuck_run {N : Nat} {p : Platform} {w : Nat} (sched : List Tid) {s : State}
    (h : Stuck w s) :
    Stuck w (run N p sched s) ∧ (run N p sched s).global_counter = s.global_counter ∧
      (run N p sched s).out = s.out := by
  induction sched generalizing s with
  | nil => exact ⟨h, rfl, rfl⟩
  | cons t ts ih =>
    obtain ⟨h1, h2, h3⟩ := stuck_step (N := N) (p := p) h t
    obtain ⟨g1, g2, g3⟩ := ih h1
    rw [run_cons]
    exact ⟨g1, g2.trans h2, g3.trans h3⟩

theorem stuck_of_terminate {s : State} {w : Nat} (ho : Owner s)
    (hw : inCS s (.worker w) = true) : Stuck w (TerminateThread w s) := by
  have hl := ho.holds _ hw
  have hF := ho.fresh
  have hL := ho.later
  simp only [inCS, Bool.or_eq_true, decide_eq_true_eq] at hw
  refine ⟨hl, by simp [TerminateThread], ?_, ?_, ?_⟩
  · intro t
    have ht := ho.holds t
    cases t with
    | main =>
      simp only [inCS, hl] at ht
      simpa [inCS, TerminateThread] using ht
    | worker v =>
      by_cases hvw : v = w
      · subst hvw; simp [inCS, TerminateThread]
      · have hvw' : w ≠ v := fun e => hvw e.symm
        simp only [inCS, hl, Option.some.injEq, Tid.worker.injEq, hvw', imp_false] at ht
        simpa [inCS, TerminateThread, Function.update_apply, hvw] using ht
  · intro hi
    have := hF hi w
    simp_all [TerminateThread]
  · intro i hi
    by_contra hlt
    have := hL i hi w (by omega)
    simp_all

/-! ## No workers -/

theorem solo_init : Solo init := ⟨rfl, fun _ => rfl, by simp [init]⟩

theorem solo_step {p : Platform} {s : State} (h : Solo s) (t : Tid) : Solo (step 0 p s t) := by
  obtain ⟨hz, hn, hlines⟩ := h
  unfold step
  cases ha : s.exitCode with
  | some c => exact ⟨hz, hn, hlines⟩
  | none =>
    cases t with
    | main =>
      simp only [stepMain]
      cases hpc : s.mainPc <;> cases hl : s.global_lock <;>
        simp only [InitThreadLock, LockThread, UnlockThread, PrepareThread, StopThread,
          TerminateThread, hl, Nat.not_lt_zero, if_false] <;> (try split) <;>
        refine ⟨?_, ?_, ?_⟩ <;> first
          | assumption
          | (intro l hl'
             simp only [List.mem_append, List.mem_singleton] at hl'
             rcases hl' with hl' | hl'
             · exact hlines l hl'
             · rw [hl', hz])
    | worker w =>
      simp only [stepWorker, hn w]
      exact ⟨hz, hn, hlines⟩

theorem solo_run {p : Platform} (sched : List Tid) {s : State} (h : Solo s) :
    Solo (run 0 p sched s) := by
  induction sched generalizing s with
  | nil => exact h
  | cons t ts ih => exact ih (solo_step h t)

/-! ## Single statements of a worker -/

theorem step_lock {N : Nat} {p : Platform} {s : State} {w : Nat} (ha : s.exitCode = none)
    (hpc : s.wpc w = .lock) (hl : s.global_lock = none) :
    step N p s (.worker w) =
      { s with global_lock := some (.worker w), wpc := Function.update s.wpc w .inc } := by
  simp [step, stepWorker, LockThread, ha, hpc, hl]

theorem step_inc {N : Nat} {p : Platform} {s : State} {w : Nat} (ha : s.exitCode = none)
    (hpc : s.wpc w = .inc) :
    step N p s (.worker w) =
      { s with global_counter := wrap32 (s.global_counter + 1),
               wpc := Function.update s.wpc w .print } := by
  simp [step, stepWorker, ha, hpc]

theorem step_print {N : Nat} {p : Platform} {s : State} {w : Nat} (ha : s.exitCode = none)
    (hpc : s.wpc w = .print) :
    step N p s (.worker w) =
      { s with out := s.out ++ [.thread s.global_counter],
               wpc := Function.update s.wpc w .unlock } := by
  simp [step, stepWorker, ha, hpc]

theorem step_unlock {N : Nat} {p : Platform} {s : State} {w : Nat} (ha : s.exitCode = none)
    (hpc : s.wpc w = .unlock) :
    step N p s (.worker w) =
      { s with global_lock := none, wpc := Function.update s.wpc w .sleep } := by
  simp [step, stepWorker, UnlockThread, ha, hpc]

theorem isInt32_wrap32 (x : Int) : isInt32 (wrap32 x) := by
  unfold wrap32 isInt32; omega

theorem isInt32_counter_run (N : Nat) (p : Platform) (sched : List Tid) :
    isInt32 (run N p sched init).global_counter := by
  rw [counter_run]
  split
  · decide
  · exact isInt32_wrap32 _

theorem run_nearOverflowSchedule :
    run num_threads .linux nearOverflowSchedule init =
      { started with global_counter := 2147483647,
                     out := iterationLines 0 2147483647,
                     wpc := Function.update started.wpc 0 .lock } := by
  obtain ⟨ha, hq, hl, hpc, hc, ho, _⟩ := started_facts
  have h := run_workerIterations num_threads .linux 0 2147483647 started ha hq hl hpc
    (by rw [hc]; decide)
  have hw : wrap32 (0 + ((2147483647 : Nat) : Int)) = 2147483647 := by decide
  rw [nearOverflowSchedule, run_append, run_append, started_eq, h, hc, ho, hw,
    List.nil_append, run_cons, run_nil]
  simp [step, stepWorker, ha, hq, hpc]

/-! ## The claims -/

/-- C1, as the code has it: in every reachable state `global_counter` equals the number of
`global_counter++` statements completed so far reduced to the range of a 32-bit signed
`int`; it equals that number exactly as long as fewer than `2^31` increments have
completed, and every increment changes the counter by `+1` with the same wrap-around. -/
theorem counter_eq_wrapped_increments (N : Nat) (p : Platform) (sched : List Tid) :
    (run N p sched init).global_counter = wrap32 (incSteps N p sched init) ∧
      (incSteps N p sched init < 2147483648 →
        (run N p sched init).global_counter = incSteps N p sched init) ∧
      (∀ s t, isInc s t = true →
        (step N p s t).global_counter = wrap32 (s.global_counter + 1)) := by
  have h : (run N p sched init).global_counter = wrap32 (incSteps N p sched init) := by
    rw [counter_run]
    split
    · rename_i h0; rw [h0]; decide
    · simp [init]
  refine ⟨h, ?_, ?_⟩
  · intro hlt
    rw [h]
    apply wrap32_of_isInt32
    unfold isInt32
    omega
  · intro s t ht
    rw [counter_step, if_pos ht]

/-- C1 witness: on the sample schedule two increments have completed and the counter is 2. -/
theorem counter_eq_wrapped_increments_witness :
    incSteps num_threads .linux sampleSchedule init < 2147483648 ∧
      (run num_threads .linux sampleSchedule init).global_counter =
        incSteps num_threads .linux sampleSchedule init :=
  ⟨by decide, (counter_eq_wrapped_increments num_threads .linux sampleSchedule).2.1 (by decide)⟩

/-- C1 fails as stated: after worker 0 has completed `2^31` iterations no worker is inside
its critical section, `2^31` increments have completed, and `global_counter` is `-2^31`. -/
theorem counter_ne_increments_after_overflow :
    (∀ w, inCS (run num_threads .linux overflowSchedule init) (.worker w) = false) ∧
      incSteps num_threads .linux overflowSchedule init = 2147483648 ∧
      (run num_threads .linux overflowSchedule init).global_counter = -2147483648 ∧
      (run num_threads .linux overflowSchedule init).global_counter ≠
        (incSteps num_threads .linux overflowSchedule init : Int) := by
  obtain ⟨ha, hq, hl, hpc, hc, ho, _⟩ := started_facts
  have hrun := run_overflowSchedule
  have hinc : incSteps num_threads .linux overflowSchedule init = 2147483648 := by
    rw [overflowSchedule, incSteps_append]
    rw [started_eq, incSteps_workerIterations num_threads .linux 0 2147483648 started ha hq hl hpc
      (by rw [hc]; decide)]
    have h0 : incSteps num_threads .linux (startup num_threads) init = 0 := by decide
    rw [h0]
  refine ⟨?_, hinc, by rw [hrun], ?_⟩
  · intro w
    have hown : Owner (run num_threads .linux overflowSchedule init) :=
      owner_run _ owner_init
    have hlock : (run num_threads .linux overflowSchedule init).global_lock = none := by
      rw [hrun]; exact hl
    cases hcs : inCS (run num_threads .linux overflowSchedule init) (.worker w) with
    | false => rfl
    | true =>
      have := hown.holds _ hcs
      rw [hlock] at this
      cases this
  · rw [hrun, hinc]
    decide

/-- C2: in every reachable state at most one unit is between its `LockThread` and its
`UnlockThread`: two units inside their critical sections are the same unit. -/
theorem mutual_exclusion (N : Nat) (p : Platform) (sched : List Tid) (t1 t2 : Tid)
    (h1 : inCS (run N p sched init) t1 = true) (h2 : inCS (run N p sched init) t2 = true) :
    t1 = t2 := by
  have ho : Owner (run N p sched init) := owner_run _ owner_init
  have e1 := ho.holds t1 h1
  have e2 := ho.holds t2 h2
  rw [e1] at e2
  exact Option.some.inj e2

/-- C2 witness: on the sample schedule worker 1 is inside its critical section. -/
theorem mutual_exclusion_witness :
    inCS (run num_threads .linux sampleSchedule init) (.worker 1) = true ∧
      Tid.worker 1 = Tid.worker 1 :=
  ⟨by decide,
    mutual_exclusion num_threads .linux sampleSchedule (.worker 1) (.worker 1)
      (by decide) (by decide)⟩

/-- C3: in every reachable state, a unit whose next statement loads or increments
`global_counter` owns `global_lock`. -/
theorem counter_access_holds_lock (N : Nat) (p : Platform) (sched : List Tid) (t : Tid)
    (h : accessesCounter (run N p sched init) t = true) :
    (run N p sched init).global_lock = some t := by
  have ho : Owner (run N p sched init) := owner_run _ owner_init
  apply ho.holds
  cases t with
  | main =>
    simp only [accessesCounter, Bool.and_eq_true, decide_eq_true_eq] at h
    simp [inCS, h.2]
  | worker w =>
    simp only [accessesCounter, Bool.and_eq_true, Bool.or_eq_true, decide_eq_true_eq] at h
    rcases h.2 with h' | h' <;> simp [inCS, h']

/-- C3 witness: on the sample schedule worker 1 is about to increment and owns the lock. -/
theorem counter_access_holds_lock_witness :
    accessesCounter (run num_threads .linux sampleSchedule init) (.worker 1) = true ∧
      (run num_threads .linux sampleSchedule init).global_lock = some (.worker 1) :=
  ⟨by decide,
    counter_access_holds_lock num_threads .linux sampleSchedule (.worker 1) (by decide)⟩

/-- C4 on the Linux branch: `StopThread` changes no worker and ends its caller. On the
shutdown path `main` leaves its loop and calls `StopThread(threads[0])`; afterwards `main`
has ended, worker 0 still waits in `LockThread`, and its next two statements acquire the
lock and raise the counter by one. On the Windows branch the same call ends worker 0,
`main` goes on to `threads[1]`, and worker 0 changes the counter no more. -/
theorem stopThread_linux_leaves_worker_running :
    (∀ s t, (StopThread .linux t s).wpc = s.wpc ∧ (StopThread .linux t s).mainPc = .exited) ∧
      (run num_threads .linux [.main] (shutdownState .linux)).mainPc = .stop 0 ∧
      (run num_threads .linux [.main, .main] (shutdownState .linux)).mainPc = .exited ∧
      (run num_threads .linux [.main, .main] (shutdownState .linux)).wpc 0 = .lock ∧
      (run num_threads .linux [.main, .main] (shutdownState .linux)).global_counter = 0 ∧
      (run num_threads .linux [.main, .main, .worker 0, .worker 0]
        (shutdownState .linux)).global_counter = 1 ∧
      (run num_threads .windows [.main, .main] (shutdownState .windows)).mainPc = .stop 1 ∧
      (run num_threads .windows [.main, .main] (shutdownState .windows)).wpc 0 = .killed ∧
      (run num_threads .windows [.main, .main, .worker 0, .worker 0]
        (shutdownState .windows)).global_counter = 0 := by
  refine ⟨fun s t => ⟨rfl, rfl⟩, ?_, ?_, ?_, ?_, ?_, ?_, ?_, ?_⟩ <;> decide

/-- C5, as the code has it: as long as fewer than `2^31` increments have completed, the
counter values printed so far, by `main` and by the workers alike, are in non-decreasing
order, for every number of workers and every interleaving. -/
theorem printed_monotone_before_overflow (N : Nat) (p : Platform) (sched : List Tid)
    (h : incSteps N p sched init < 2147483648) :
    List.Pairwise (· ≤ ·) (printed (run N p sched init)) := by
  apply sorted_run
  · decide
  · have h0 : init.global_counter = 0 := rfl
    rw [h0]; omega
  · simp [printed, init]
  · simp [printed, init]

/-- C5 witness: the sample schedule prints 1, 2, 2. -/
theorem printed_monotone_before_overflow_witness :
    incSteps num_threads .linux sampleSchedule init < 2147483648 ∧
      printed (run num_threads .linux sampleSchedule init) = [1, 2, 2] ∧
      List.Pairwise (· ≤ ·) (printed (run num_threads .linux sampleSchedule init)) :=
  ⟨by decide, by decide,
    printed_monotone_before_overflow num_threads .linux sampleSchedule (by decide)⟩

/-- C5 fails as stated: when worker 0 completes `2^31` iterations, the last two values
printed are 2147483647 and then -2147483648. -/
theorem printed_not_monotone_after_overflow :
    ¬ List.Pairwise (· ≤ ·) (printed (run num_threads .linux overflowSchedule init)) := by
  rw [run_overflowSchedule]
  have h2 : iterationLines 0 2147483648 =
      iterationLines 0 2147483646 ++ [Line.thread 2147483647, Line.thread (-2147483648)] := by
    have e := iterationLines_succ 0 2147483647
    have e' := iterationLines_succ 0 2147483646
    have w1 : wrap32 (0 + ((2147483647 : Nat) : Int) + 1) = -2147483648 := by decide
    have w2 : wrap32 (0 + ((2147483646 : Nat) : Int) + 1) = 2147483647 := by decide
    rw [w1] at e
    rw [w2] at e'
    have n1 : (2147483647 + 1 : Nat) = 2147483648 := by norm_num
    have n2 : (2147483646 + 1 : Nat) = 2147483647 := by norm_num
    rw [n1] at e
    rw [n2] at e'
    rw [e, e', List.append_assoc]
    rfl
  intro hp
  simp only [printed] at hp
  rw [h2, List.map_append, List.pairwise_append] at hp
  have := hp.2.1
  simp [Line.value] at this

/-- C6, as the code has it: let worker `w` acquire the lock in a reachable state, and let
the other units run in any way before its increment, between its increment and its print,
and after its print. Then `w` owns the lock, the only line printed since the acquisition
is the one `w` prints, it shows the counter value at the acquisition plus 1 reduced to the
32-bit signed range (exactly plus 1 unless that value was 2147483647), and the counter has
this value when `w` is about to release the lock and right after it has released it. -/
theorem worker_prints_own_increment (N : Nat) (p : Platform) (pre a b c : List Tid) (w : Nat)
    (hpc : (run N p pre init).wpc w = .lock) (hfree : (run N p pre init).global_lock = none)
    (ha : Tid.worker w ∉ a) (hb : Tid.worker w ∉ b) (hc : Tid.worker w ∉ c) :
    (step N p (run N p pre init) (.worker w)).global_lock = some (.worker w) ∧
    (step N p (run N p pre init) (.worker w)).global_counter =
      (run N p pre init).global_counter ∧
    (run N p (.worker w :: a ++ .worker w :: b ++ .worker w :: c) (run N p pre init)).out =
      (run N p pre init).out ++
        [.thread (wrap32 ((run N p pre init).global_counter + 1))] ∧
    (run N p (.worker w :: a ++ .worker w :: b ++ .worker w :: c)
      (run N p pre init)).global_counter = wrap32 ((run N p pre init).global_counter + 1) ∧
    (run N p (.worker w :: a ++ .worker w :: b ++ .worker w :: c)
      (run N p pre init)).wpc w = .unlock ∧
    (run N p (.worker w :: a ++ .worker w :: b ++ .worker w :: c ++ [.worker w])
      (run N p pre init)).global_lock = none ∧
    (run N p (.worker w :: a ++ .worker w :: b ++ .worker w :: c ++ [.worker w])
      (run N p pre init)).global_counter = wrap32 ((run N p pre init).global_counter + 1) ∧
    ((run N p pre init).global_counter ≠ 2147483647 →
      wrap32 ((run N p pre init).global_counter + 1) =
        (run N p pre init).global_counter + 1) := by
  have hint := isInt32_counter_run N p pre
  have ho : Owner (run N p pre init) := owner_run _ owner_init
  have hcalm : Calm (run N p pre init) := calm_run _ calm_init
  generalize run N p pre init = s at *
  simp only [run_append, run_cons, run_nil]
  -- the acquisition
  have e0 := step_lock (N := N) (p := p) hcalm.alive hpc hfree
  have ho0 : Owner (step N p s (.worker w)) := owner_step ho _
  have hc0 : Calm (step N p s (.worker w)) := calm_step hcalm _
  have k0 : (step N p s (.worker w)).global_counter = s.global_counter := by rw [e0]
  have o0 : (step N p s (.worker w)).out = s.out := by rw [e0]
  have l0 : (step N p s (.worker w)).global_lock = some (.worker w) := by rw [e0]
  have w0 : (step N p s (.worker w)).wpc w = .inc := by rw [e0]; simp
  generalize step N p s (.worker w) = s0 at *
  -- the others run, then the increment
  obtain ⟨ka, oa, _, wa⟩ := frame_run (N := N) (p := p) a ho0 hc0 (by simp [inCS, w0]) ha
  have hoa : Owner (run N p a s0) := owner_run _ ho0
  have hca : Calm (run N p a s0) := calm_run _ hc0
  rw [w0] at wa
  generalize run N p a s0 = sa at *
  have e1 := step_inc (N := N) (p := p) hca.alive wa
  have ho1 : Owner (step N p sa (.worker w)) := owner_step hoa _
  have hc1 : Calm (step N p sa (.worker w)) := calm_step hca _
  have k1 : (step N p sa (.worker w)).global_counter = wrap32 (sa.global_counter + 1) := by
    rw [e1]
  have o1 : (step N p sa (.worker w)).out = sa.out := by rw [e1]
  have w1 : (step N p sa (.worker w)).wpc w = .print := by rw [e1]; simp
  generalize step N p sa (.worker w) = s1 at *
  -- the others run, then the print
  obtain ⟨kb, ob, _, wb⟩ := frame_run (N := N) (p := p) b ho1 hc1 (by simp [inCS, w1]) hb
  have hob : Owner (run N p b s1) := owner_run _ ho1
  have hcb : Calm (run N p b s1) := calm_run _ hc1
  rw [w1] at wb
  generalize run N p b s1 = sb at *
  have e2 := step_print (N := N) (p := p) hcb.alive wb
  have ho2 : Owner (step N p sb (.worker w)) := owner_step hob _
  have hc2 : Calm (step N p sb (.worker w)) := calm_step hcb _
  have k2 : (step N p sb (.worker w)).global_counter = sb.global_counter := by rw [e2]
  have o2 : (step N p sb (.worker w)).out = sb.out ++ [.thread sb.global_counter] := by
    rw [e2]
  have w2 : (step N p sb (.worker w)).wpc w = .unlock := by rw [e2]; simp
  generalize step N p sb (.worker w) = s2 at *
  -- the others run, then the release
  obtain ⟨kc, oc, _, wc⟩ := frame_run (N := N) (p := p) c ho2 hc2 (by simp [inCS, w2]) hc
  have hcc : Calm (run N p c s2) := calm_run _ hc2
  rw [w2] at wc
  generalize run N p c s2 = sc at *
  have e3 := step_unlock (N := N) (p := p) hcc.alive wc
  have kfin : sc.global_counter = wrap32 (s.global_counter + 1) := by
    rw [kc, k2, kb, k1, ka, k0]
  refine ⟨l0, k0, ?_, ?_, ?_, ?_, ?_, ?_⟩
  · rw [oc, o2, ob, o1, oa, o0, kb, k1, ka, k0]
  · exact kfin
  · exact wc
  · rw [e3]
  · rw [e3]; exact kfin
  · intro hne
    apply wrap32_of_isInt32
    unfold isInt32 at hint ⊢
    omega

/-- C6 witness: worker 1 acquires the lock at counter value 1 while `main`, worker 0 and
worker 2 keep running; the line it prints shows 2. -/
theorem worker_prints_own_increment_witness :
    (run num_threads .linux acquireSchedule init).wpc 1 = .lock ∧
      (run num_threads .linux acquireSchedule init).global_lock = none ∧
      (run num_threads .linux
        (.worker 1 :: [.main, .worker 0] ++ .worker 1 :: [.main] ++ .worker 1 :: [.worker 2])
        (run num_threads .linux acquireSchedule init)).out =
        (run num_threads .linux acquireSchedule init).out ++
          [.thread (wrap32 ((run num_threads .linux acquireSchedule init).global_counter + 1))] :=
  ⟨by decide, by decide,
    (worker_prints_own_increment num_threads .linux acquireSchedule [.main, .worker 0] [.main]
      [.worker 2] 1 (by decide) (by decide) (by decide) (by decide) (by decide)).2.2.1⟩

/-- C6 fails as stated: after `2^31 - 1` iterations worker 0 acquires the lock at counter
value 2147483647; the line it then prints shows -2147483648, which is not that value
plus 1. -/
theorem worker_print_wraps_at_int_max :
    (run num_threads .linux nearOverflowSchedule init).wpc 0 = .lock ∧
      (run num_threads .linux nearOverflowSchedule init).global_lock = none ∧
      (step num_threads .linux (run num_threads .linux nearOverflowSchedule init)
        (.worker 0)).global_lock = some (.worker 0) ∧
      (step num_threads .linux (run num_threads .linux nearOverflowSchedule init)
        (.worker 0)).global_counter = 2147483647 ∧
      (run num_threads .linux [.worker 0, .worker 0, .worker 0]
        (run num_threads .linux nearOverflowSchedule init)).out =
        (run num_threads .linux nearOverflowSchedule init).out ++
          [.thread (-2147483648)] ∧
      (-2147483648 : Int) ≠ 2147483647 + 1 := by
  obtain ⟨ha, hq, hl, hpc, hc, ho, _⟩ := started_facts
  have hw : wrap32 2147483648 = -2147483648 := by decide
  rw [run_nearOverflowSchedule]
  refine ⟨?_, ?_, ?_, ?_, ?_, by decide⟩
  · simp
  · exact hl
  · simp [step, stepWorker, LockThread, ha, hl]
  · simp [step, stepWorker, LockThread, ha, hl]
  · simp [run, step, stepWorker, LockThread, ha, hl, hw]

/-- C7: a statement of `main` never changes `global_counter`; with zero workers the
counter is 0 in every reachable state and every line printed is `main` reporting 0. -/
theorem main_loop_leaves_counter :
    (∀ N p s, (step N p s .main).global_counter = s.global_counter) ∧
      (∀ p sched, (run 0 p sched init).global_counter = 0 ∧
        ∀ l ∈ (run 0 p sched init).out, l = Line.main 0) := by
  refine ⟨?_, ?_⟩
  · intro N p s
    rw [counter_step]
    simp [isInc]
  · intro p sched
    have h : Solo (run 0 p sched init) := solo_run sched solo_init
    exact ⟨h.zero, h.lines⟩

/-- C7 witness: with zero workers, after five statements of `main` one line is printed,
and it reports 0. -/
theorem main_loop_leaves_counter_witness :
    (run 0 .linux (List.replicate 5 .main) init).out = [Line.main 0] ∧
      Line.main 0 = Line.main 0 :=
  ⟨by decide,
    (main_loop_leaves_counter.2 .linux (List.replicate 5 .main)).2 (Line.main 0) (by decide)⟩

/-- C8, as the code has it: for an `int` argument `ms`, the product `ms * 1000` computed
in 32-bit signed arithmetic equals the exact product `1000*ms` precisely when
`-2147483 ≤ ms ≤ 2147483`; for `0 ≤ ms ≤ 2147483` the Linux branch hands exactly
`1000*ms` microseconds to `usleep`, the duration the Windows branch requests with
`Sleep(ms)`; in particular 500 gives 500000 and 1000 gives 1000000. -/
theorem sleep_product_exact_iff (ms : Int) (h : isInt32 ms) :
    (sleepProduct ms = 1000 * ms ↔ -2147483 ≤ ms ∧ ms ≤ 2147483) ∧
      (0 ≤ ms ∧ ms ≤ 2147483 →
        sleep .linux ms = .usleep (1000 * ms) ∧
          (sleep .linux ms).micros = (sleep .windows ms).micros) ∧
      sleep .linux 500 = .usleep 500000 ∧ sleep .linux 1000 = .usleep 1000000 := by
  unfold isInt32 at h
  refine ⟨?_, ?_, by decide, by decide⟩
  · unfold sleepProduct wrap32
    constructor
    · intro e; omega
    · intro e; omega
  · intro hr
    have e1 : toU32 (sleepProduct ms) = 1000 * ms := by
      unfold toU32 sleepProduct wrap32; omega
    have e2 : toU32 ms = ms := by unfold toU32; omega
    simp only [sleep, SleepCall.micros, e1, e2, and_self]

/-- C8 witness: the two sleeps of the program, 500 and 1000 milliseconds. -/
theorem sleep_product_exact_iff_witness :
    isInt32 1000 ∧ sleepProduct 1000 = 1000000 ∧
      (sleep .linux 1000).micros = (sleep .windows 1000).micros :=
  ⟨by decide, by decide,
    ((sleep_product_exact_iff 1000 (by decide)).2.1 ⟨by decide, by decide⟩).2⟩

/-- C8 fails as stated: 2147484 and 4294968 are `int` values; for 2147484 the 32-bit
product is -2147483296, and for 4294968 the product is 704 and `usleep` is asked for 704
microseconds where `Sleep` is asked for 4294968 milliseconds. -/
theorem sleep_product_overflows :
    isInt32 2147484 ∧ sleepProduct 2147484 = -2147483296 ∧
      sleepProduct 2147484 ≠ 1000 * 2147484 ∧
      isInt32 4294968 ∧ sleepProduct 4294968 = 704 ∧ sleepProduct 4294968 ≠ 1000 * 4294968 ∧
      sleep .linux 4294968 = .usleep 704 ∧
      (sleep .linux 4294968).micros ≠ (sleep .windows 4294968).micros := by
  refine ⟨?_, ?_, ?_, ?_, ?_, ?_, ?_, ?_⟩ <;> decide

/-- C9: a worker leaves its loop exactly when it tests `quitnow` and finds it true, and so
does `main`; the counter value has no influence on where a unit goes next; no statement
writes `quitnow`; hence in every reachable state `quitnow` is false, the process has not
exited, `main` is neither in its `StopThread` loop nor at `return 0` nor ended, and no
worker has left its loop. -/
theorem loops_exit_only_on_quitnow (N : Nat) (p : Platform) :
    (∀ s w, s.exitCode = none →
      ((step N p s (.worker w)).wpc w = .ret ∧ s.wpc w ≠ .ret ↔
        s.wpc w = .check ∧ s.quitnow = true)) ∧
    (∀ s, s.exitCode = none →
      ((step N p s .main).mainPc = .stop 0 ↔ s.mainPc = .check ∧ s.quitnow = true)) ∧
    (∀ s c t, (step N p { s with global_counter := c } t).wpc = (step N p s t).wpc ∧
      (step N p { s with global_counter := c } t).mainPc = (step N p s t).mainPc) ∧
    (∀ s t, (step N p s t).quitnow = s.quitnow) ∧
    (∀ sched, (run N p sched init).quitnow = false ∧ (run N p sched init).exitCode = none ∧
      (∀ i, (run N p sched init).mainPc ≠ .stop i) ∧ (run N p sched init).mainPc ≠ .ret ∧
      (run N p sched init).mainPc ≠ .exited ∧ ∀ w, (run N p sched init).wpc w ≠ .ret) := by
  refine ⟨?_, ?_, ?_, ?_, ?_⟩
  · intro s w ha
    simp only [step, ha, stepWorker]
    cases hpc : s.wpc w <;> cases hl : s.global_lock <;> cases hq : s.quitnow <;>
      simp [LockThread, UnlockThread, hl, hpc]
  · intro s ha
    simp only [step, ha, stepMain]
    cases hpc : s.mainPc <;> cases hl : s.global_lock <;> cases hq : s.quitnow <;>
      simp only [InitThreadLock, LockThread, UnlockThread, PrepareThread, StopThread,
        TerminateThread, hl] <;> (try split) <;> (try split) <;> simp_all
  · intro s c t
    unfold step
    cases ha : s.exitCode with
    | some e => simp
    | none =>
      cases t with
      | main =>
        simp only [stepMain]
        cases hpc : s.mainPc <;> cases hl : s.global_lock <;>
          simp only [InitThreadLock, LockThread, UnlockThread, PrepareThread, StopThread,
            TerminateThread, hl] <;> (try split) <;> (try split) <;> simp [hpc]
      | worker w =>
        simp only [stepWorker]
        cases hpc : s.wpc w <;> cases hl : s.global_lock <;>
          simp only [LockThread, UnlockThread, hl] <;> (try split) <;> simp [hpc]
  · intro s t
    unfold step
    cases ha : s.exitCode with
    | some e => simp
    | none =>
      cases t with
      | main =>
        simp only [stepMain]
        cases hpc : s.mainPc <;> cases hl : s.global_lock <;>
          simp only [InitThreadLock, LockThread, UnlockThread, PrepareThread, StopThread,
            TerminateThread, hl] <;> (try split) <;> (try split) <;> simp [hpc]
      | worker w =>
        simp only [stepWorker]
        cases hpc : s.wpc w <;> cases hl : s.global_lock <;>
          simp only [LockThread, UnlockThread, hl] <;> (try split) <;> simp [hpc]
  · intro sched
    have h : Calm (run N p sched init) := calm_run sched calm_init
    exact ⟨h.quit, h.alive, h.mainStop, h.mainRet, h.mainExited, h.workerRet⟩

/-- C9 witness: once the flag has been raised from outside, worker 1, standing at its loop
test, leaves its loop with its next statement. -/
theorem loops_exit_only_on_quitnow_witness :
    (shutdownState .linux).exitCode = none ∧
      (step num_threads .linux (shutdownState .linux) (.worker 1)).wpc 1 = .ret :=
  ⟨by decide,
    (((loops_exit_only_on_quitnow num_threads .linux).1 (shutdownState .linux) 1
      (by decide)).2 ⟨by decide, by decide⟩).1⟩

/-- C10: a state in which a worker is inside its critical section is reachable; the forced
stop of the Windows branch of `StopThread` is `TerminateThread`; and from every reachable
state in which worker `w` is inside its critical section, once `w` is terminated by
`TerminateThread`, in every later state `global_lock` is still owned by `w`, every
`LockThread` has to wait, and neither the counter nor the output changes. -/
theorem forced_stop_keeps_lock (p : Platform) :
    (∃ pre w, inCS (run num_threads p pre init) (.worker w) = true) ∧
    (∀ s w, StopThread .windows w s = TerminateThread w s) ∧
    (∀ N pre w, inCS (run N p pre init) (.worker w) = true → ∀ later,
      (run N p later (TerminateThread w (run N p pre init))).global_lock = some (.worker w) ∧
      (∀ t, LockThread t (run N p later (TerminateThread w (run N p pre init))) = none) ∧
      (run N p later (TerminateThread w (run N p pre init))).global_counter =
        (run N p pre init).global_counter ∧
      (run N p later (TerminateThread w (run N p pre init))).out =
        (run N p pre init).out) := by
  refine ⟨⟨sampleSchedule, 1, ?_⟩, fun _ _ => rfl, ?_⟩
  · cases p <;> decide
  · intro N pre w hw later
    have ho : Owner (run N p pre init) := owner_run _ owner_init
    obtain ⟨h1, h2, h3⟩ := stuck_run (N := N) (p := p) later (stuck_of_terminate ho hw)
    refine ⟨h1.held, ?_, h2, h3⟩
    intro t
    simp [LockThread, h1.held]

/-- C10 witness: on the sample schedule worker 1 is inside its critical section; after it is
terminated there, `main` and worker 2 run on and the lock stays with worker 1. -/
theorem forced_stop_keeps_lock_witness :
    inCS (run num_threads .windows sampleSchedule init) (.worker 1) = true ∧
      (run num_threads .windows [.main, .main, .main, .worker 2, .worker 2, .worker 2]
        (TerminateThread 1 (run num_threads .windows sampleSchedule init))).global_lock =
          some (.worker 1) :=
  ⟨by decide,
    ((forced_stop_keeps_lock .windows).2.2 num_threads sampleSchedule 1 (by decide)
      [.main, .main, .main, .worker 2, .worker 2, .worker 2]).1⟩

end Lab12
